import Mathlib

/-!
# Verification of the cppvtable vtable/ABI code generator

Shallow embedding of the core algorithms of the `cppvtable` repository:

* the slot resolver of `cppvtable_internal` and `cppvtable_impl_internal`
  (crates/cppvtable-macro/src/lib.rs),
* the gap-filling field generation for vtable records,
* the this-adjustment trampolines,
* the reserved-slot stubs,
* `iunknown_methods!`'s `query_interface` and `ComRefCount`
  (crates/cppvtable/src/com.rs),
* `TypeInfo::cast_to` / `TypeInfo::implements` (crates/cppvtable/src/rtti.rs),
* `parse_guid_string` (crates/cppvtable-macro/src/lib.rs),
* the calling-convention selection.
-/

namespace CppVtable

/-! ## Slot resolver (crates/cppvtable-macro/src/lib.rs)

A method declaration as seen by the resolver: its name and the optional
explicit slot index.  In the source the explicit index comes either from the
`slots(...)` override map of the attribute or from a `#[slot(N)]` attribute on
the method; both code paths perform the identical checks, so they are merged
into one `declaredSlot` field here. -/

structure MethodDecl where
  name : String
  declaredSlot : Option Nat
  deriving Repr, DecidableEq

/-- Structured form of the `syn::Error` raised on a slot conflict.  The source
formats these into strings; the constructor arguments carry exactly the data
interpolated into the message (slot, offending method name, boundary). -/
inductive SlotError where
  /-- message: slot(k) for method NAME conflicts with base interface methods
      (first available: FIRST) -/
  | conflictsWithBase (slot : Nat) (methodName : String) (firstAvailable : Nat)
  /-- message: slot(k) for method NAME would overlap with previous slots
      (next available: NEXT) -/
  | overlapsPrevious (slot : Nat) (methodName : String) (nextAvailable : Nat)
  deriving Repr, DecidableEq

/-- The slot-assignment loop of `cppvtable_internal` (lib.rs lines 615-696).
`firstSlot` is the local `first_slot` (the source always sets it to `0`, even
when a base interface is present: own slots are relative to the derived
portion), `next` is the running `next_slot`.  For each trait method in
declaration order: an explicit slot below `first_slot` or below `next_slot`
is an error naming the method; otherwise the method gets its explicit slot,
or `next_slot` when it has none, and `next_slot` becomes the assigned
slot + 1. -/
def traitResolveSlots (firstSlot : Nat) :
    Nat → List MethodDecl → Except SlotError (List (Nat × String))
  | _, [] => .ok []
  | next, d :: rest =>
    match d.declaredSlot with
    | some k =>
      if k < firstSlot then
        .error (.conflictsWithBase k d.name firstSlot)
      else if k < next then
        .error (.overlapsPrevious k d.name next)
      else
        (traitResolveSlots firstSlot (k + 1) rest).map (fun l => (k, d.name) :: l)
    | none =>
        (traitResolveSlots firstSlot (next + 1) rest).map (fun l => (next, d.name) :: l)

/-- The `first_slot` local of `cppvtable_internal` (lib.rs line 604): always 0,
also for derived interfaces — "slot indices are relative to the derived
interface (slot 0 = first method after base)". -/
def cppvtableInternalFirstSlot : Nat := 0

/-- The slot-assignment loop of `cppvtable_impl_internal` (lib.rs lines
1415-1471).  `next` starts at `config.first_slot` (0 for `cppvtable_impl`,
3 for `com_implement`).  Unlike the trait-side loop there is only the
`explicit_slot < next_slot` check, so explicit slots are absolute here. -/
def implResolveSlots : Nat → List MethodDecl → Except SlotError (List (Nat × String))
  | _, [] => .ok []
  | next, d :: rest =>
    match d.declaredSlot with
    | some k =>
      if k < next then
        .error (.overlapsPrevious k d.name next)
      else
        (implResolveSlots (k + 1) rest).map (fun l => (k, d.name) :: l)
    | none =>
        (implResolveSlots (next + 1) rest).map (fun l => (next, d.name) :: l)

/-- `config.first_slot` used by `com_implement_internal` (lib.rs line 1846):
3, because "IUnknown has QueryInterface, AddRef, Release". -/
def comImplementFirstSlot : Nat := 3

/-! ## Gap filling / vtable field generation -/

/-- One slot of the generated vtable record: either a reserved (dummy) entry
`__reserved_slot_{idx}` or a real method's function pointer. -/
inductive SlotEntry where
  | reserved (idx : Nat)
  | method (name : String)
  deriving Repr, DecidableEq

/-- The field/entry generation loop shared by `cppvtable_internal` (lib.rs
lines 701-752) and `cppvtable_impl_internal` (lines 1515-1604): `current` is
the running `current_slot`; for each assigned method (in ascending slot
order) the gap `current..slot` is filled with reserved entries, then the
method's entry is emitted and `current_slot` becomes `slot + 1`. -/
def fillSlots : Nat → List (Nat × String) → List SlotEntry
  | _, [] => []
  | current, (slot, name) :: rest =>
      ((List.range' current (slot - current)).map SlotEntry.reserved)
        ++ (SlotEntry.method name :: fillSlots (slot + 1) rest)

/-- The final value of `current_slot` after the generation loop
(`total_slot_count` in `cppvtable_internal`). -/
def totalAfter : Nat → List (Nat × String) → Nat
  | current, [] => current
  | _, (slot, _) :: rest => totalAfter (slot + 1) rest

/-- The stable `sort_by_key(|m| m.slot)` applied before field generation
(lib.rs lines 699 and 1474), modelled as insertion sort on the slot key. -/
def insertBySlot (p : Nat × String) : List (Nat × String) → List (Nat × String)
  | [] => [p]
  | q :: rest => if p.1 ≤ q.1 then p :: q :: rest else q :: insertBySlot p rest

/-- Sort the assignments by slot index, as the source does before generating
fields.  On resolver output this is the identity (slots already strictly
increase); see `sortBySlot_eq_self_of_sorted`. -/
def sortBySlot : List (Nat × String) → List (Nat × String)
  | [] => []
  | p :: rest => insertBySlot p (sortBySlot rest)

/-- What the claim calls the slot table entry at index `j`: the method
assigned to `j`, or a reserved slot when no method claims `j`. -/
def entryAt (l : List (Nat × String)) (j : Nat) : SlotEntry :=
  match l.lookup j with
  | some n => .method n
  | none => .reserved j

/-- `next_free` bookkeeping of the claim: after processing assignments `l`
starting from `start`, the next free slot is `last assigned slot + 1`
(or `start` when nothing was assigned). -/
def nextFreeAfter (start : Nat) (l : List (Nat × String)) : Nat :=
  l.foldl (fun _ p => p.1 + 1) start

/-! ## Vtable record shape (`cppvtable_internal`, lib.rs lines 826-852) -/

/-- A field of the generated `{Name}VTable` record. -/
inductive VtField where
  /-- the embedded base vtable record (`pub base: <Base as VTableLayout>::VTable`) -/
  | base
  /-- a function-pointer field for one slot -/
  | slotField (e : SlotEntry)
  deriving Repr, DecidableEq

/-- Field list of the generated vtable record: the embedded base record first
(when a base interface is declared), then one function-pointer field per
slot produced by the gap-filling loop, in emission order. -/
def vtableStructFields (hasBase : Bool) (l : List (Nat × String)) : List VtField :=
  (if hasBase then [VtField.base] else []) ++ (fillSlots 0 l).map VtField.slotField

/-- `own_slot_count` (lib.rs line 827): the `current_slot` value after the
field loop, counting the derived interface's own slots including gaps. -/
def ownSlotCount (l : List (Nat × String)) : Nat := totalAfter 0 l

/-- `slot_count_expr` (lib.rs lines 828-832): the `SLOT_COUNT` constant,
`base::SLOT_COUNT + own_slot_count` with a base and `own_slot_count`
without one. -/
def slotCountExpr (baseSlotCount : Option Nat) (l : List (Nat × String)) : Nat :=
  match baseSlotCount with
  | some b => b + ownSlotCount l
  | none => ownSlotCount l

/-- Byte size of the `#[repr(C)]` vtable record on a target with pointer size
`ptrSize`: every slot field is one function pointer (pointer-sized and
pointer-aligned) and an embedded base record of `baseSlots` slots occupies
`baseSlots` pointers, so the record packs with no padding. -/
def vtableRecordSize (ptrSize baseSlots : Nat) (l : List (Nat × String)) : Nat :=
  baseSlots * ptrSize + (fillSlots 0 l).length * ptrSize

/-! ## Trampolines (this-adjustment wrappers)

`cppvtable_impl_internal` (lib.rs lines 1550-1591) and the
`forwarder_wrappers` of `cppvtable_internal` (lines 944-969) both emit, per
implemented method, a wrapper whose body is

    let offset = ::std::mem::offset_of!(StructType, vtable_field);
    let adjusted = (this as *mut u8).sub(offset) as *mut StructType;
    (&*adjusted).method(args)           -- or &mut *adjusted for &mut self

Addresses are modelled as naturals below `2 ^ 64`; `ptr::sub` wraps modulo
the address space.  Memory is modelled at struct granularity: a map from
addresses to the struct value located there. -/

/-- Size of the address space on the 64-bit target. -/
def addrMod : Nat := 2 ^ 64

/-- `(this as *mut u8).sub(offset)`: wrapping pointer subtraction. -/
def ptrSub (p off : Nat) : Nat := (p + (addrMod - off % addrMod)) % addrMod

/-- Trampoline for a method with an immutable receiver (`&self`): adjust the
incoming interface pointer by the vtable-field offset, view the struct at
the adjusted address, call the real method forwarding the arguments, return
its result. -/
def trampolineConst {α : Type} (offset : Nat) (method : α → List Int → Int)
    (mem : Nat → α) (this : Nat) (args : List Int) : Int :=
  let adjusted := ptrSub this offset
  method (mem adjusted) args

/-- Trampoline for a method with a mutable receiver (`&mut self`): as
`trampolineConst`, but the call may update the struct behind the adjusted
pointer, so the result is the updated memory together with the returned
value. -/
def trampolineMut {α : Type} (offset : Nat) (method : α → List Int → α × Int)
    (mem : Nat → α) (this : Nat) (args : List Int) : (Nat → α) × Int :=
  let adjusted := ptrSub this offset
  let r := method (mem adjusted) args
  (Function.update mem adjusted r.1, r.2)

/-- The struct of the round-trip scenario (mirrors `MultiImpl` of
tests/multiple_inheritance.rs): two vtable-pointer fields followed by a data
field, `#[repr(C)]` on a 64-bit target. -/
structure MultiImpl where
  vtable_i_first : Nat
  vtable_i_second : Nat
  value : Int
  deriving Repr, DecidableEq

/-- `offset_of!(MultiImpl, vtable_i_second)` on the 64-bit target: the field
follows one pointer-sized field. -/
def offsetVtableISecond : Nat := 8

/-- The real method reading the known field (`second_value` reads
`self.value`; here without the doubling, i.e. `first_value`'s body moved to
the secondary interface: a method that reads the field). -/
def MultiImpl.readValue (s : MultiImpl) (_args : List Int) : Int := s.value

/-! ## Reserved-slot stubs (`cppvtable_impl_internal`, lib.rs lines 1515-1541) -/

/-- Outcome of invoking a generated vtable entry: a normal return, or a fatal
runtime failure (the Rust stub executes a panicking macro inside an
`extern` function, which aborts the process). -/
inductive CallOutcome (α : Type) where
  | ok (v : α)
  | fatal (msg : String)
  deriving Repr, DecidableEq

/-- The stub generated for reserved slot `n`
(`__reserved_slot_{n}` wrapper): it ignores the receiver and unconditionally
signals the fatal error `Called reserved vtable slot {n}`. -/
def reservedSlotStub (n : Nat) (_this : Nat) : CallOutcome Unit :=
  .fatal ("Called reserved vtable slot " ++ toString n)

/-! ## Calling-convention selection -/

/-- The `CallingConvention` enum of the macro crate. -/
inductive CallingConvention where
  | thiscall
  | stdcall
  deriving Repr, DecidableEq

/-- `VTableConfig::x86_calling_conv` / `ImplConfig::x86_calling_conv`
(lib.rs lines 158-166 and 190-198): the `extern` ABI string used on x86. -/
def x86CallingConv : CallingConvention → String
  | .thiscall => "thiscall"
  | .stdcall => "stdcall"

/-- The ABI string placed on every generated function-pointer type / wrapper:
the source emits each under a `#[cfg(target_arch = "x86")]` /
`#[cfg(not(target_arch = "x86"))]` pair, so a 32-bit x86 target gets the
configured convention and every other target (in particular all 64-bit
targets) gets `extern "C"` with the receiver as explicit first parameter. -/
def fnPtrConvention (cc : CallingConvention) (targetIsX86 : Bool) : String :=
  if targetIsX86 then x86CallingConv cc else "C"

/-- The convention of C++ interfaces: `VTableConfig::default()` /
`cppvtable_impl_impl` use `CallingConvention::Thiscall`. -/
def cppCallingConvention : CallingConvention := .thiscall

/-- The convention of COM interfaces: `com_interface` / `com_implement_internal`
use `CallingConvention::Stdcall`. -/
def comCallingConvention : CallingConvention := .stdcall

/-! ## COM layer (crates/cppvtable/src/com.rs) -/

/-- The 128-bit GUID (com.rs lines 45-50).  `data4` holds the 8 trailing
bytes. -/
structure GUID where
  data1 : Nat
  data2 : Nat
  data3 : Nat
  data4 : List Nat
  deriving Repr, DecidableEq

/-- `IID_IUNKNOWN` (com.rs lines 254-259). -/
def IID_IUNKNOWN : GUID :=
  ⟨0x00000000, 0x0000, 0x0000, [0xC0, 0x00, 0x00, 0x00, 0x00, 0x00, 0x00, 0x46]⟩

/-- `S_OK` (com.rs line 184). -/
def S_OK : Int := 0

/-- `E_NOINTERFACE = 0x8000_4002_u32 as i32` (com.rs line 190). -/
def E_NOINTERFACE : Int := 0x80004002 - 2 ^ 32

/-- `E_POINTER = 0x8000_4003_u32 as i32` (com.rs line 193). -/
def E_POINTER : Int := 0x80004003 - 2 ^ 32

/-- `u32` modulus for the atomic reference counter. -/
def u32Mod : Nat := 2 ^ 32

/-- The observable state of a COM object for `query_interface`: its reference
count (the `ref_count: ComRefCount` field) and the address of its
vtable-pointer field (`&self.$vtable_field`, the adjusted interface pointer
the method hands out). -/
structure ComObject where
  refCount : Nat
  vtableFieldAddr : Nat
  deriving Repr, DecidableEq

/-- Result of one `query_interface` call: the returned `HRESULT`, the value
written through `ppv` (`some p` means the pointer value `p` was stored,
with `0` the null pointer; `none` means `*ppv` was not written), and the
object state afterwards. -/
structure QIResult where
  hr : Int
  written : Option Nat
  obj : ComObject
  deriving Repr, DecidableEq

/-- `query_interface` of the `iunknown_methods!` macro (com.rs lines 357-380):
if `ppv` is null return `E_POINTER`; if `*riid` equals the implemented
interface's IID or `IID_IUNKNOWN`, write `&self.vtable_field` to `*ppv`,
`add_ref`, and return `S_OK`; otherwise write null to `*ppv` and return
`E_NOINTERFACE`. -/
def queryInterface (iidConst : GUID) (o : ComObject) (riid : GUID)
    (ppvIsNull : Bool) : QIResult :=
  if ppvIsNull then
    ⟨E_POINTER, none, o⟩
  else if riid = iidConst ∨ riid = IID_IUNKNOWN then
    ⟨S_OK, some o.vtableFieldAddr, { o with refCount := (o.refCount + 1) % u32Mod }⟩
  else
    ⟨E_NOINTERFACE, some 0, o⟩

/-! ## ComRefCount (com.rs lines 290-320)

`ComRefCount` wraps an `AtomicU32`.  `new` stores 1; `add_ref` is
`fetch_add(1, Relaxed) + 1` and `release` is `fetch_sub(1, Release) - 1`,
both returning the new count.  The `u32` arithmetic wraps modulo `2 ^ 32`. -/

/-- `ComRefCount::new()`: initial count 1. -/
def refCountNew : Nat := 1

/-- Stored counter after `add_ref` (also the value it returns). -/
def addRefStep (c : Nat) : Nat := (c + 1) % u32Mod

/-- Stored counter after `release` (also the value it returns). -/
def releaseStep (c : Nat) : Nat := (c + (u32Mod - 1)) % u32Mod

/-- One step of the reference-count state machine. -/
inductive RefOp where
  | addRef
  | release
  deriving Repr, DecidableEq

/-- Apply one refcount operation. -/
def refStep (c : Nat) : RefOp → Nat
  | .addRef => addRefStep c
  | .release => releaseStep c

/-- Run a sequence of refcount operations from state `c`. -/
def runRefOps (c : Nat) (ops : List RefOp) : Nat := ops.foldl refStep c

/-! ## RTTI (crates/cppvtable/src/rtti.rs) -/

/-- `InterfaceInfo` (rtti.rs lines 44-51): the interface identifier (a
`*const u8`, compared by pointer identity, modelled as its address) and the
byte offset from object start to the interface's vtable-pointer field. -/
structure InterfaceInfo where
  interfaceId : Nat
  offset : Int
  deriving Repr, DecidableEq

/-- `TypeInfo` (rtti.rs lines 77-86). -/
structure TypeInfo where
  typeId : Nat
  typeName : String
  interfaces : List InterfaceInfo
  deriving Repr, DecidableEq

/-- `TypeInfo::cast_to` (rtti.rs lines 106-118): linear scan of the entries;
on the first identifier match return `object_ptr + entry.offset`, else the
null pointer (`none`). -/
def TypeInfo.castTo (ti : TypeInfo) (objectPtr : Int) (interfaceId : Nat) : Option Int :=
  match ti.interfaces.find? (fun i => i.interfaceId == interfaceId) with
  | some info => some (objectPtr + info.offset)
  | none => none

/-- `TypeInfo::implements` (rtti.rs lines 121-126): true iff some entry's
identifier matches. -/
def TypeInfo.impls (ti : TypeInfo) (interfaceId : Nat) : Bool :=
  ti.interfaces.any (fun i => i.interfaceId == interfaceId)

/-! ## GUID string parsing (`parse_guid_string`, lib.rs lines 1728-1775) -/

/-- Hexadecimal digit test, as accepted by Rust's `from_str_radix(_, 16)`
(code points of `0`-`9`, `a`-`f`, `A`-`F`). -/
def isHexDigit (c : Char) : Bool :=
  (48 ≤ c.toNat && c.toNat ≤ 57) ||
  (97 ≤ c.toNat && c.toNat ≤ 102) ||
  (65 ≤ c.toNat && c.toNat ≤ 70)

/-- Value of one hexadecimal digit. -/
def hexDigitVal (c : Char) : Nat :=
  if 48 ≤ c.toNat && c.toNat ≤ 57 then c.toNat - 48
  else if 97 ≤ c.toNat && c.toNat ≤ 102 then c.toNat - 97 + 10
  else c.toNat - 65 + 10

/-- Value of a hex digit string (most significant digit first). -/
def hexVal (s : List Char) : Nat :=
  s.foldl (fun acc c => acc * 16 + hexDigitVal c) 0

/-- The sign handling of Rust's `from_str_radix` on an unsigned target type:
a single leading `+` is stripped (a `-` is not, and later fails as an
invalid digit). -/
def stripLeadingPlus (s : List Char) : List Char :=
  match s with
  | c :: rest => if c = '+' then rest else c :: rest
  | [] => []

/-- Rust's `uN::from_str_radix(s, 16)` for an unsigned `N`-bit integer: an
optional leading `+`, then a nonempty run of hex digits whose value fits in
`N` bits; anything else (empty input, a stray sign, a non-hex character, or
overflow) is an error. -/
def fromStrRadix16 (bits : Nat) (s : List Char) : Except Unit Nat :=
  let digits := stripLeadingPlus s
  if digits.isEmpty then .error ()
  else if digits.all isHexDigit then
    if hexVal digits < 2 ^ bits then .ok (hexVal digits) else .error ()
  else .error ()

/-- `str::trim`: strip leading and trailing whitespace. -/
def trimChars (s : List Char) : List Char :=
  ((s.dropWhile Char.isWhitespace).reverse.dropWhile Char.isWhitespace).reverse

/-- `str::split('-')`: split on every `-`, keeping empty pieces. -/
def splitOnDash : List Char → List (List Char)
  | [] => [[]]
  | c :: rest =>
    match splitOnDash rest with
    | [] => [[]]
    | p :: ps => if c = '-' then [] :: p :: ps else (c :: p) :: ps

/-- Structured form of the error strings of `parse_guid_string`. -/
inductive GuidParseError where
  /-- "Invalid GUID format: expected xxxxxxxx-xxxx-xxxx-xxxx-xxxxxxxxxxxx" -/
  | invalidFormat
  /-- "Invalid GUID data1/2/3" for group `g` (1-3) -/
  | invalidGroup (g : Nat)
  /-- "Invalid GUID data4 first part: expected 4 hex chars" -/
  | badData4FirstLen
  /-- "Invalid GUID data4 second part: expected 12 hex chars" -/
  | badData4SecondLen
  /-- "Invalid GUID data4[i]" -/
  | invalidByte (i : Nat)
  deriving Repr, DecidableEq

/-- `parse_guid_string` (lib.rs lines 1728-1775): trim the input, split on
`-`, require exactly 5 parts; parse part 1 as `u32`, parts 2 and 3 as `u16`
(no length check on these three); require part 4 to have exactly 4
characters and part 5 exactly 12; parse the 8 `data4` bytes pairwise as
`u8`. -/
def parseGuidString (s : List Char) : Except GuidParseError (Nat × Nat × Nat × List Nat) :=
  match splitOnDash (trimChars s) with
  | [p0, p1, p2, p3, p4] => do
    let data1 ← (fromStrRadix16 32 p0).mapError (fun _ => GuidParseError.invalidGroup 1)
    let data2 ← (fromStrRadix16 16 p1).mapError (fun _ => GuidParseError.invalidGroup 2)
    let data3 ← (fromStrRadix16 16 p2).mapError (fun _ => GuidParseError.invalidGroup 3)
    if p3.length ≠ 4 then throw .badData4FirstLen
    else if p4.length ≠ 12 then throw .badData4SecondLen
    else do
      let b0 ← (fromStrRadix16 8 (p3.take 2)).mapError (fun _ => GuidParseError.invalidByte 0)
      let b1 ← (fromStrRadix16 8 (p3.drop 2)).mapError (fun _ => GuidParseError.invalidByte 1)
      let b2 ← (fromStrRadix16 8 ((p4.drop 0).take 2)).mapError
        (fun _ => GuidParseError.invalidByte 2)
      let b3 ← (fromStrRadix16 8 ((p4.drop 2).take 2)).mapError
        (fun _ => GuidParseError.invalidByte 3)
      let b4 ← (fromStrRadix16 8 ((p4.drop 4).take 2)).mapError
        (fun _ => GuidParseError.invalidByte 4)
      let b5 ← (fromStrRadix16 8 ((p4.drop 6).take 2)).mapError
        (fun _ => GuidParseError.invalidByte 5)
      let b6 ← (fromStrRadix16 8 ((p4.drop 8).take 2)).mapError
        (fun _ => GuidParseError.invalidByte 6)
      let b7 ← (fromStrRadix16 8 ((p4.drop 10).take 2)).mapError
        (fun _ => GuidParseError.invalidByte 7)
      return (data1, data2, data3, [b0, b1, b2, b3, b4, b5, b6, b7])
  | _ => throw .invalidFormat

/-- The canonical hyphenated GUID string built from five digit groups:
`g1-g2-g3-g4-g5`. -/
def canonicalGuid (g1 g2 g3 g4 g5 : List Char) : List Char :=
  g1 ++ '-' :: (g2 ++ '-' :: (g3 ++ '-' :: (g4 ++ '-' :: g5)))

/-- The spec's accepted GUID textual form:
`xxxxxxxx-xxxx-xxxx-xxxx-xxxxxxxxxxxx`, five groups of 8, 4, 4, 4, 12
hexadecimal digits. -/
def IsCanonicalGuid (s : List Char) : Prop :=
  ∃ g1 g2 g3 g4 g5 : List Char,
    s = canonicalGuid g1 g2 g3 g4 g5 ∧
    g1.length = 8 ∧ g2.length = 4 ∧ g3.length = 4 ∧ g4.length = 4 ∧ g5.length = 12 ∧
    (∀ c ∈ g1, isHexDigit c) ∧ (∀ c ∈ g2, isHexDigit c) ∧ (∀ c ∈ g3, isHexDigit c) ∧
    (∀ c ∈ g4, isHexDigit c) ∧ (∀ c ∈ g5, isHexDigit c)

/-! ## Helper lemmas -/

theorem except_map_ok {ε α β : Type} {f : α → β} {e : Except ε α} {b : β} :
    e.map f = .ok b ↔ ∃ a, e = .ok a ∧ f a = b := by
  cases e <;> simp [Except.map]

theorem except_map_error {ε α β : Type} {f : α → β} {e : Except ε α} {err : ε} :
    e.map f = .error err ↔ e = .error err := by
  cases e <;> simp [Except.map]

/-- Success characterization of the trait-side slot resolver with no base
interface (`first_slot = 0`): the assignments list the methods in
declaration order without loss, every assigned slot is at least the `next`
the resolver started from, slots strictly increase, and each method gets its
declared slot (which must be at least the running next-free slot) or the
running next-free slot when it declares none. -/
theorem traitResolveSlots_ok_spec (decls : List MethodDecl) :
    ∀ n L, traitResolveSlots 0 n decls = .ok L →
      L.map Prod.snd = decls.map MethodDecl.name ∧
      (∀ p ∈ L, n ≤ p.1) ∧
      List.Pairwise (fun a b => a.1 < b.1) L ∧
      (∀ i (hi : i < decls.length) (hi' : i < L.length),
        ((decls.get ⟨i, hi⟩).declaredSlot = none →
          (L.get ⟨i, hi'⟩).1 = nextFreeAfter n (L.take i)) ∧
        (∀ k, (decls.get ⟨i, hi⟩).declaredSlot = some k →
          nextFreeAfter n (L.take i) ≤ k ∧ (L.get ⟨i, hi'⟩).1 = k)) := by
  induction decls with
  | nil =>
    intro n L h
    simp only [traitResolveSlots] at h
    cases h
    refine ⟨rfl, by simp, by simp, ?_⟩
    intro i hi
    exact absurd hi (by simp)
  | cons d rest ih =>
    intro n L h
    cases hd : d.declaredSlot with
    | some k =>
      simp only [traitResolveSlots, hd, Nat.not_lt_zero, if_false] at h
      by_cases hk : k < n
      · rw [if_pos hk] at h
        cases h
      · rw [if_neg hk] at h
        obtain ⟨L', hL', rfl⟩ := except_map_ok.mp h
        obtain ⟨hnames, hlb, hpw, hget⟩ := ih (k + 1) L' hL'
        refine ⟨by simpa using hnames, ?_, ?_, ?_⟩
        · intro p hp
          rcases List.mem_cons.mp hp with rfl | hp'
          · exact Nat.le_of_not_lt hk
          · exact Nat.le_trans (Nat.le_of_not_lt hk) (Nat.le_of_succ_le (hlb p hp'))
        · exact List.pairwise_cons.mpr ⟨fun p hp => hlb p hp, hpw⟩
        · intro i hi hi'
          cases i with
          | zero =>
            constructor
            · intro hnone
              have hnone2 : d.declaredSlot = none := hnone
              rw [hd] at hnone2
              cases hnone2
            · intro k' hk'
              have hk2 : d.declaredSlot = some k' := hk'
              rw [hd] at hk2
              cases hk2
              exact ⟨Nat.le_of_not_lt hk, rfl⟩
          | succ j =>
            have hj : j < rest.length := Nat.lt_of_succ_lt_succ hi
            have hj' : j < L'.length := Nat.lt_of_succ_lt_succ hi'
            have := hget j hj hj'
            simpa [List.get_cons_succ, nextFreeAfter, List.take_succ_cons] using this
    | none =>
      simp only [traitResolveSlots, hd] at h
      obtain ⟨L', hL', rfl⟩ := except_map_ok.mp h
      obtain ⟨hnames, hlb, hpw, hget⟩ := ih (n + 1) L' hL'
      refine ⟨by simpa using hnames, ?_, ?_, ?_⟩
      · intro p hp
        rcases List.mem_cons.mp hp with rfl | hp'
        · exact Nat.le_refl n
        · exact Nat.le_of_succ_le (hlb p hp')
      · exact List.pairwise_cons.mpr ⟨fun p hp => hlb p hp, hpw⟩
      · intro i hi hi'
        cases i with
        | zero =>
          constructor
          · intro _; rfl
          · intro k' hk'
            have hk2 : d.declaredSlot = some k' := hk'
            rw [hd] at hk2
            cases hk2
        | succ j =>
          have hj : j < rest.length := Nat.lt_of_succ_lt_succ hi
          have hj' : j < L'.length := Nat.lt_of_succ_lt_succ hi'
          have := hget j hj hj'
          simpa [List.get_cons_succ, nextFreeAfter, List.take_succ_cons] using this

/-- Failure of the trait-side resolver: if the methods before position `i`
resolve to `P` and the method at `i` declares a slot below the next free
slot, the whole resolution fails with a conflict error carrying the
offending method's name and slot. -/
theorem traitResolveSlots_error_of_conflict (pre : List MethodDecl) :
    ∀ n P, traitResolveSlots 0 n pre = .ok P →
      ∀ (d : MethodDecl) (rest : List MethodDecl) (k : Nat),
        d.declaredSlot = some k → k < nextFreeAfter n P →
        traitResolveSlots 0 n (pre ++ d :: rest)
          = .error (.overlapsPrevious k d.name (nextFreeAfter n P)) := by
  induction pre with
  | nil =>
    intro n P h d rest k hk hlt
    simp only [traitResolveSlots] at h
    cases h
    simp only [nextFreeAfter, List.foldl_nil] at hlt ⊢
    simp only [List.nil_append, traitResolveSlots, hk]
    rw [if_neg (Nat.not_lt_zero k), if_pos hlt]
  | cons d0 pre' ih =>
    intro n P h d rest k hk hlt
    cases hd0 : d0.declaredSlot with
    | some k0 =>
      simp only [traitResolveSlots, hd0, Nat.not_lt_zero, if_false] at h
      by_cases hk0 : k0 < n
      · rw [if_pos hk0] at h; cases h
      · rw [if_neg hk0] at h
        obtain ⟨P', hP', rfl⟩ := except_map_ok.mp h
        have hnf : nextFreeAfter n ((k0, d0.name) :: P') = nextFreeAfter (k0 + 1) P' := rfl
        rw [hnf] at hlt ⊢
        have hrec := ih (k0 + 1) P' hP' d rest k hk hlt
        simp only [List.cons_append, traitResolveSlots, hd0, Nat.not_lt_zero, if_false,
          List.append_eq]
        rw [if_neg hk0, hrec]
        rfl
    | none =>
      simp only [traitResolveSlots, hd0] at h
      obtain ⟨P', hP', rfl⟩ := except_map_ok.mp h
      have hnf : nextFreeAfter n ((n, d0.name) :: P') = nextFreeAfter (n + 1) P' := rfl
      rw [hnf] at hlt ⊢
      have hrec := ih (n + 1) P' hP' d rest k hk hlt
      simp only [List.cons_append, traitResolveSlots, hd0, List.append_eq]
      rw [hrec]
      rfl

theorem totalAfter_eq_nextFreeAfter :
    ∀ (l : List (Nat × String)) (s : Nat), totalAfter s l = nextFreeAfter s l := by
  intro l
  induction l with
  | nil => intro s; rfl
  | cons p rest ih =>
    intro s
    cases p with
    | mk k nm => exact ih (k + 1)

theorem le_totalAfter :
    ∀ (l : List (Nat × String)) (s : Nat), (∀ p ∈ l, s ≤ p.1) →
      List.Pairwise (fun a b : Nat × String => a.1 < b.1) l → s ≤ totalAfter s l := by
  intro l
  induction l with
  | nil => intro s _ _; exact Nat.le_refl s
  | cons p rest ih =>
    intro s hb hpw
    cases p with
    | mk k nm =>
      have hk : s ≤ k := hb (k, nm) (by simp)
      have hrest : ∀ q ∈ rest, k + 1 ≤ q.1 := fun q hq =>
        (List.pairwise_cons.mp hpw).1 q hq
      have := ih (k + 1) hrest (List.pairwise_cons.mp hpw).2
      calc s ≤ k + 1 := Nat.le_succ_of_le hk
        _ ≤ totalAfter (k + 1) rest := this

theorem lookup_eq_none_of_keys_gt {l : List (Nat × String)} {j : Nat}
    (h : ∀ p ∈ l, j < p.1) : l.lookup j = none := by
  induction l with
  | nil => rfl
  | cons p rest ih =>
    have hj : (j == p.1) = false := by
      simpa using Nat.ne_of_lt (h p (by simp))
    simp only [List.lookup, hj]
    exact ih fun q hq => h q (by simp [hq])

/-- The gap-filling loop produces exactly one entry per slot index in
`[s, totalAfter s l)`, in ascending order: the assigned method where one
exists and a reserved entry everywhere else. -/
theorem fillSlots_eq_range'_map :
    ∀ (l : List (Nat × String)) (s : Nat), (∀ p ∈ l, s ≤ p.1) →
      List.Pairwise (fun a b : Nat × String => a.1 < b.1) l →
      fillSlots s l = (List.range' s (totalAfter s l - s)).map (entryAt l) := by
  intro l
  induction l with
  | nil => intro s _ _; simp [fillSlots, totalAfter]
  | cons p rest ih =>
    intro s hb hpw
    cases p with
    | mk k nm =>
      have hk : s ≤ k := hb (k, nm) (by simp)
      have hrest : ∀ q ∈ rest, k + 1 ≤ q.1 := fun q hq =>
        (List.pairwise_cons.mp hpw).1 q hq
      have hpw' := (List.pairwise_cons.mp hpw).2
      have hT : k + 1 ≤ totalAfter (k + 1) rest := le_totalAfter rest (k + 1) hrest hpw'
      have hsplit : totalAfter s ((k, nm) :: rest) - s
          = ((totalAfter (k + 1) rest - (k + 1)) + 1) + (k - s) := by
        simp only [totalAfter]
        omega
      rw [hsplit, ← List.range'_append_1]
      have hks : s + (k - s) = k := by omega
      rw [hks, List.range'_succ, List.map_append, List.map_cons]
      have h1 : (List.range' s (k - s)).map (entryAt ((k, nm) :: rest))
          = (List.range' s (k - s)).map SlotEntry.reserved := by
        apply List.map_congr_left
        intro j hj
        have hjk : j < k := by
          have := (List.mem_range'_1.mp hj).2
          omega
        unfold entryAt
        rw [show ((k, nm) :: rest).lookup j = none from
          lookup_eq_none_of_keys_gt (by
            intro q hq
            rcases List.mem_cons.mp hq with rfl | hq'
            · exact hjk
            · exact Nat.lt_trans hjk (hrest q hq'))]
      have h2 : entryAt ((k, nm) :: rest) k = SlotEntry.method nm := by
        unfold entryAt
        rw [List.lookup_cons_self]
      have h3 : (List.range' (k + 1) (totalAfter (k + 1) rest - (k + 1))).map
            (entryAt ((k, nm) :: rest))
          = (List.range' (k + 1) (totalAfter (k + 1) rest - (k + 1))).map (entryAt rest) := by
        apply List.map_congr_left
        intro j hj
        have hjk : k < j := by
          have := (List.mem_range'_1.mp hj).1
          omega
        unfold entryAt
        have hbe : (j == k) = false := by simpa using Nat.ne_of_gt hjk
        have hlk : ((k, nm) :: rest).lookup j = rest.lookup j := by
          simp only [List.lookup, hbe]
        rw [hlk]
      rw [h1, h2, h3, ← ih (k + 1) hrest hpw']
      rfl

/-- The `sort_by_key` pass is the identity on assignments whose slots already
strictly increase. -/
theorem sortBySlot_eq_self_of_sorted :
    ∀ l : List (Nat × String), List.Pairwise (fun a b : Nat × String => a.1 < b.1) l →
      sortBySlot l = l := by
  intro l
  induction l with
  | nil => intro _; rfl
  | cons p rest ih =>
    intro h
    obtain ⟨hhead, htail⟩ := List.pairwise_cons.mp h
    simp only [sortBySlot, ih htail]
    cases rest with
    | nil => rfl
    | cons q t =>
      have : p.1 < q.1 := hhead q (by simp)
      simp [insertBySlot, Nat.le_of_lt this]

theorem totalAfter_eq_getLast_succ :
    ∀ (l : List (Nat × String)) (s : Nat) (h : l ≠ []),
      totalAfter s l = (l.getLast h).1 + 1 := by
  intro l
  induction l with
  | nil => intro s h; exact absurd rfl h
  | cons p rest ih =>
    intro s h
    cases p with
    | mk k nm =>
      cases rest with
      | nil => rfl
      | cons q t =>
        rw [List.getLast_cons (by simp)]
        exact ih (k + 1) (by simp)

theorem getLast_is_max :
    ∀ (l : List (Nat × String)) (h : l ≠ []),
      List.Pairwise (fun a b : Nat × String => a.1 < b.1) l →
      ∀ p ∈ l, p.1 ≤ (l.getLast h).1 := by
  intro l
  induction l with
  | nil => intro h; exact absurd rfl h
  | cons q rest ih =>
    intro h hpw p hp
    obtain ⟨hhead, htail⟩ := List.pairwise_cons.mp hpw
    cases rest with
    | nil =>
      rcases List.mem_cons.mp hp with rfl | hp'
      · exact Nat.le_refl _
      · exact absurd hp' (by simp)
    | cons r t =>
      rw [List.getLast_cons (by simp)]
      rcases List.mem_cons.mp hp with rfl | hp'
      · exact Nat.le_of_lt (hhead _ (List.getLast_mem (by simp)))
      · exact ih (by simp) htail p hp'

theorem nextFreeAfter_take_succ {l : List (Nat × String)} {i : Nat} (hi : i < l.length)
    (s : Nat) : nextFreeAfter s (l.take (i + 1)) = (l.get ⟨i, hi⟩).1 + 1 := by
  induction l generalizing i s with
  | nil => exact absurd hi (by simp)
  | cons p rest ih =>
    cases i with
    | zero =>
      cases p with
      | mk k nm => rfl
    | succ j =>
      have hj : j < rest.length := Nat.lt_of_succ_lt_succ hi
      have := ih hj (p.1 + 1)
      simpa [List.take_succ_cons, nextFreeAfter] using this

/-! ## Claim theorems -/

/-- C2: For an interface with no base, the slot resolver processes methods
in declaration order with `next_free` starting at 0: on success the
assignments list every method, in order (nothing reassigned or dropped); a
method without a declared slot is assigned the running next-free slot; a
method with a declared slot `k` is assigned `k`, and `k` is at least the
running next-free slot; after each assignment the next-free slot becomes
`assigned_slot + 1`; and the generated table has, for every index in
`[0, next_free)`, the assigned method where one exists and a reserved slot
everywhere else.  If instead some method declares a slot below the next-free
slot reached by the methods before it, code generation fails with a conflict
error naming that method and the slot boundary. -/
theorem c2_slot_resolver_no_base (decls : List MethodDecl) :
    (∀ L, traitResolveSlots 0 0 decls = .ok L →
      L.map Prod.snd = decls.map MethodDecl.name ∧
      (∀ i (hi : i < decls.length) (hi' : i < L.length),
        ((decls.get ⟨i, hi⟩).declaredSlot = none →
          (L.get ⟨i, hi'⟩).1 = nextFreeAfter 0 (L.take i)) ∧
        (∀ k, (decls.get ⟨i, hi⟩).declaredSlot = some k →
          nextFreeAfter 0 (L.take i) ≤ k ∧ (L.get ⟨i, hi'⟩).1 = k) ∧
        nextFreeAfter 0 (L.take (i + 1)) = (L.get ⟨i, hi'⟩).1 + 1) ∧
      fillSlots 0 L = (List.range' 0 (nextFreeAfter 0 L)).map (entryAt L)) ∧
    (∀ i (hi : i < decls.length) P k,
      traitResolveSlots 0 0 (decls.take i) = .ok P →
      (decls.get ⟨i, hi⟩).declaredSlot = some k →
      k < nextFreeAfter 0 P →
      traitResolveSlots 0 0 decls
        = .error (.overlapsPrevious k (decls.get ⟨i, hi⟩).name (nextFreeAfter 0 P))) := by
  constructor
  · intro L h
    obtain ⟨hnames, hlb, hpw, hget⟩ := traitResolveSlots_ok_spec decls 0 L h
    refine ⟨hnames, ?_, ?_⟩
    · intro i hi hi'
      exact ⟨(hget i hi hi').1, (hget i hi hi').2, nextFreeAfter_take_succ hi' 0⟩
    · have := fillSlots_eq_range'_map L 0 (fun p _ => Nat.zero_le p.1) hpw
      rw [this, Nat.sub_zero, totalAfter_eq_nextFreeAfter]
  · intro i hi P k hpre hk hlt
    have hdecomp : decls = decls.take i ++ (decls.get ⟨i, hi⟩ :: decls.drop (i + 1)) := by
      rw [List.get_eq_getElem]
      conv_lhs => rw [← List.take_append_drop i decls]
      rw [List.drop_eq_getElem_cons hi]
    calc traitResolveSlots 0 0 decls
        = traitResolveSlots 0 0 (decls.take i ++ (decls.get ⟨i, hi⟩ :: decls.drop (i + 1))) := by
          rw [← hdecomp]
      _ = .error (.overlapsPrevious k (decls.get ⟨i, hi⟩).name (nextFreeAfter 0 P)) :=
          traitResolveSlots_error_of_conflict (decls.take i) 0 P hpre _ _ k hk hlt

/-- C2 witness: a concrete resolution with one auto slot and one explicit
slot 2, leaving slot 1 reserved. -/
theorem c2_slot_resolver_no_base_witness :
    fillSlots 0 [(0, "a"), (2, "c")]
      = (List.range' 0 (nextFreeAfter 0 [(0, "a"), (2, "c")])).map
          (entryAt [(0, "a"), (2, "c")]) :=
  ((c2_slot_resolver_no_base [⟨"a", none⟩, ⟨"c", some 2⟩]).1
    [(0, "a"), (2, "c")] rfl).2.2

/-- C3: the claim says the slot resolver starts `next_free` at the base slot
count B (3 for COM) and treats a declared slot index as absolute, rejecting
`k < B`.  The implementation-side resolver of `com_implement_internal` does
exactly that, but the interface-side resolver of `cppvtable_internal` starts
at 0 and treats declared slots as relative to the derived portion: it
accepts `slot(0)` on a derived COM interface.  On the doc example
(`do_something`, then `do_other` with `slot(5)`) the interface side places
`do_other` at relative slot 5 (absolute slot 8, total slot count 9) while
the implementation side places it at absolute slot 5 (total slot count 6),
so the two generated layouts disagree. -/
theorem c3_derived_interface_slot_base_divergence :
    traitResolveSlots cppvtableInternalFirstSlot cppvtableInternalFirstSlot
        [⟨"m", some 0⟩] = .ok [(0, "m")] ∧
    implResolveSlots comImplementFirstSlot [⟨"m", some 0⟩]
      = .error (.overlapsPrevious 0 "m" 3) ∧
    traitResolveSlots 0 0 [⟨"do_something", none⟩, ⟨"do_other", some 5⟩]
      = .ok [(0, "do_something"), (5, "do_other")] ∧
    slotCountExpr (some 3) [(0, "do_something"), (5, "do_other")] = 9 ∧
    implResolveSlots 3 [⟨"do_something", none⟩, ⟨"do_other", some 5⟩]
      = .ok [(3, "do_something"), (5, "do_other")] ∧
    totalAfter 3 [(3, "do_something"), (5, "do_other")] = 6 := by
  refine ⟨rfl, rfl, rfl, rfl, rfl, rfl⟩

/-- C4: the generated vtable record's fields are exactly the embedded base
record first (when a base is declared) followed by one function-pointer
field per slot in strictly ascending slot order (the sort pass never
reorders anything); the total slot count is the base slot count plus
`1 + highest own slot index` (the highest being the last assigned slot);
the record's byte size is `slot count × pointer size`; and for a base of
slot count 3 with two own auto-slotted methods the total is 5 slots and
`5 × pointer-size` bytes. -/
theorem c4_vtable_record_layout (decls : List MethodDecl) (L : List (Nat × String))
    (h : traitResolveSlots 0 0 decls = .ok L) :
    sortBySlot L = L ∧
    vtableStructFields true L
      = VtField.base ::
        (List.range' 0 (ownSlotCount L)).map (fun j => VtField.slotField (entryAt L j)) ∧
    vtableStructFields false L
      = (List.range' 0 (ownSlotCount L)).map (fun j => VtField.slotField (entryAt L j)) ∧
    (∀ b, slotCountExpr (some b) L = b + ownSlotCount L) ∧
    (∀ hne : L ≠ [],
      ownSlotCount L = (L.getLast hne).1 + 1 ∧ ∀ p ∈ L, p.1 ≤ (L.getLast hne).1) ∧
    (∀ ptrSize b, vtableRecordSize ptrSize b L = (b + ownSlotCount L) * ptrSize) ∧
    (decls.length = 2 → (∀ d ∈ decls, d.declaredSlot = none) →
      slotCountExpr (some 3) L = 5 ∧ ∀ p, vtableRecordSize p 3 L = 5 * p) := by
  obtain ⟨hnames, hlb, hpw, hget⟩ := traitResolveSlots_ok_spec decls 0 L h
  have hfill : fillSlots 0 L = (List.range' 0 (ownSlotCount L)).map (entryAt L) := by
    have := fillSlots_eq_range'_map L 0 (fun p _ => Nat.zero_le p.1) hpw
    rw [this, Nat.sub_zero]
    rfl
  have hlen : (fillSlots 0 L).length = ownSlotCount L := by
    rw [hfill, List.length_map, List.length_range']
  refine ⟨sortBySlot_eq_self_of_sorted L hpw, ?_, ?_, fun b => rfl, ?_, ?_, ?_⟩
  · simp [vtableStructFields, hfill, List.map_map]
  · simp [vtableStructFields, hfill, List.map_map]
  · intro hne
    exact ⟨totalAfter_eq_getLast_succ L 0 hne, getLast_is_max L hne hpw⟩
  · intro ptrSize b
    unfold vtableRecordSize
    rw [hlen]
    ring
  · intro hlen2 hnone
    obtain ⟨d1, d2, rfl⟩ := List.length_eq_two.mp hlen2
    have h1 : d1.declaredSlot = none := hnone d1 (by simp)
    have h2 : d2.declaredSlot = none := hnone d2 (by simp)
    simp only [traitResolveSlots, h1, h2] at h
    obtain ⟨L2, hL2, rfl⟩ := except_map_ok.mp h
    obtain ⟨L3, hL3, rfl⟩ := except_map_ok.mp hL2
    cases hL3
    refine ⟨rfl, fun p => ?_⟩
    show 3 * p + (fillSlots 0 [(0, d1.name), (0 + 1, d2.name)]).length * p = 5 * p
    rw [show (fillSlots 0 [(0, d1.name), (0 + 1, d2.name)]).length = 2 from rfl]
    ring

/-- C4 witness: two auto-slotted methods over a 3-slot base give 5 total
slots and a `5 × pointer-size` record (8-byte pointers here). -/
theorem c4_vtable_record_layout_witness :
    slotCountExpr (some 3) [(0, "m1"), (1, "m2")] = 5 ∧
    vtableRecordSize 8 3 [(0, "m1"), (1, "m2")] = 40 :=
  ⟨((c4_vtable_record_layout [⟨"m1", none⟩, ⟨"m2", none⟩] [(0, "m1"), (1, "m2")] rfl).2.2.2.2.2.2
      rfl (by decide)).1,
   by
    have := ((c4_vtable_record_layout [⟨"m1", none⟩, ⟨"m2", none⟩]
      [(0, "m1"), (1, "m2")] rfl).2.2.2.2.2.2 rfl (by decide)).2 8
    simpa using this⟩

theorem ptrSub_add_cancel {a off : Nat} (h : a + off < addrMod) :
    ptrSub (a + off) off = a := by
  have hoff : off < addrMod := Nat.lt_of_le_of_lt (Nat.le_add_left off a) h
  have ha : a < addrMod := Nat.lt_of_le_of_lt (Nat.le_add_right a off) h
  unfold ptrSub
  rw [Nat.mod_eq_of_lt hoff]
  have : a + off + (addrMod - off) = a + addrMod := by omega
  rw [this, Nat.add_mod_right, Nat.mod_eq_of_lt ha]

/-- C1: the generated trampoline, called with a pointer to the interface's
vtable-pointer field inside the struct (the struct's address plus the
field's offset), computes `adjusted = receiver_ptr - offset`, which recovers
the struct's address; it calls the real method on the struct at that
address (as an immutable or mutable view per the receiver mutability) with
the arguments forwarded unchanged and returns its result unchanged; in
particular a struct with a known field value, viewed through a secondary
interface at offset 8, yields the known value from a method reading that
field. -/
theorem c1_trampoline_this_adjustment {α : Type} (mem : Nat → α) (a off : Nat)
    (args : List Int) (cm : α → List Int → Int) (mm : α → List Int → α × Int)
    (h : a + off < addrMod) :
    ptrSub (a + off) off = a ∧
    trampolineConst off cm mem (a + off) args = cm (mem a) args ∧
    trampolineMut off mm mem (a + off) args
      = (Function.update mem a (mm (mem a) args).1, (mm (mem a) args).2) ∧
    (∀ (m2 : Nat → MultiImpl) (b : Nat) (v : Int),
      b + offsetVtableISecond < addrMod → (m2 b).value = v →
      trampolineConst offsetVtableISecond MultiImpl.readValue m2
        (b + offsetVtableISecond) [] = v) := by
  have hadj := ptrSub_add_cancel h
  refine ⟨hadj, ?_, ?_, ?_⟩
  · unfold trampolineConst
    rw [hadj]
  · unfold trampolineMut
    rw [hadj]
  · intro m2 b v hb hv
    unfold trampolineConst
    rw [ptrSub_add_cancel hb]
    exact hv

/-- C1 witness: a struct holding 42 at address 16, called through the
secondary interface pointer at address 24, returns 42. -/
theorem c1_trampoline_this_adjustment_witness :
    trampolineConst offsetVtableISecond MultiImpl.readValue
      (fun _ => MultiImpl.mk 0 0 42) (16 + offsetVtableISecond) [] = 42 :=
  (c1_trampoline_this_adjustment (fun _ => MultiImpl.mk 0 0 42) 16 offsetVtableISecond []
      MultiImpl.readValue (fun s _ => (s, s.value)) (by decide)).2.2.2
    (fun _ => MultiImpl.mk 0 0 42) 16 42 (by decide) rfl

/-- C5: the stub generated for a reserved slot `n` ignores its receiver and
unconditionally produces the fatal error `Called reserved vtable slot n`; it
never returns normally. -/
theorem c5_reserved_slot_stub_fatal (n thisPtr : Nat) :
    reservedSlotStub n thisPtr
      = .fatal ("Called reserved vtable slot " ++ toString n) ∧
    ∀ v, reservedSlotStub n thisPtr ≠ .ok v := by
  refine ⟨rfl, ?_⟩
  intro v hv
  simp [reservedSlotStub] at hv

/-- C7: the calling convention of the generated function-pointer types is a
pure function of the declared preference and the target: every non-x86
(in particular 64-bit) target gets the unified `extern "C"` convention
regardless of preference, 32-bit x86 gets exactly the declared preference,
and the declared preference is thiscall for C++ interfaces and stdcall for
COM interfaces. -/
theorem c7_calling_convention_selection (cc : CallingConvention) :
    fnPtrConvention cc false = "C" ∧
    fnPtrConvention cc true = x86CallingConv cc ∧
    fnPtrConvention cppCallingConvention true = "thiscall" ∧
    fnPtrConvention comCallingConvention true = "stdcall" ∧
    cppCallingConvention = CallingConvention.thiscall ∧
    comCallingConvention = CallingConvention.stdcall :=
  ⟨rfl, rfl, rfl, rfl, rfl, rfl⟩

/-- C6: `query_interface` returns `E_POINTER` (without writing or touching
the count) when `ppv` is null; on an IID match (the implemented interface or
IUnknown) it writes the non-null vtable-field address, increments the count
by exactly 1 and returns `S_OK`; on any other IID it writes null, leaves the
count unchanged and returns `E_NOINTERFACE`; it never pairs a success code
with a null written pointer and always produces one of the three result
codes. -/
theorem c6_query_interface_contract (iidConst : GUID) (o : ComObject) (riid : GUID)
    (haddr : o.vtableFieldAddr ≠ 0) (hcnt : o.refCount + 1 < u32Mod) :
    queryInterface iidConst o riid true = ⟨E_POINTER, none, o⟩ ∧
    E_POINTER < 0 ∧
    ((riid = iidConst ∨ riid = IID_IUNKNOWN) →
      queryInterface iidConst o riid false
        = ⟨S_OK, some o.vtableFieldAddr, ⟨o.refCount + 1, o.vtableFieldAddr⟩⟩ ∧
      o.vtableFieldAddr ≠ 0 ∧ 0 ≤ S_OK) ∧
    (riid ≠ iidConst ∧ riid ≠ IID_IUNKNOWN →
      queryInterface iidConst o riid false = ⟨E_NOINTERFACE, some 0, o⟩ ∧
      E_NOINTERFACE < 0) ∧
    (∀ ppvIsNull : Bool,
      (0 ≤ (queryInterface iidConst o riid ppvIsNull).hr →
        ∀ p, (queryInterface iidConst o riid ppvIsNull).written = some p → p ≠ 0) ∧
      ((queryInterface iidConst o riid ppvIsNull).hr = S_OK ∨
       (queryInterface iidConst o riid ppvIsNull).hr = E_POINTER ∨
       (queryInterface iidConst o riid ppvIsNull).hr = E_NOINTERFACE)) := by
  have hmod : (o.refCount + 1) % u32Mod = o.refCount + 1 := Nat.mod_eq_of_lt hcnt
  have hep : E_POINTER < 0 := by norm_num [E_POINTER]
  have hen : E_NOINTERFACE < 0 := by norm_num [E_NOINTERFACE]
  refine ⟨rfl, hep, ?_, ?_, ?_⟩
  · intro hmatch
    refine ⟨?_, haddr, le_refl 0⟩
    unfold queryInterface
    rw [if_neg Bool.false_ne_true, if_pos hmatch, hmod]
  · intro ⟨h1, h2⟩
    have hnot : ¬(riid = iidConst ∨ riid = IID_IUNKNOWN) := by
      intro hc
      rcases hc with hc | hc
      · exact h1 hc
      · exact h2 hc
    refine ⟨?_, hen⟩
    unfold queryInterface
    rw [if_neg Bool.false_ne_true, if_neg hnot]
  · intro ppvIsNull
    cases ppvIsNull with
    | true =>
      refine ⟨?_, Or.inr (Or.inl rfl)⟩
      intro hge p hp
      simp [queryInterface] at hp
    | false =>
      by_cases hmatch : riid = iidConst ∨ riid = IID_IUNKNOWN
      · constructor
        · intro _ p hp
          unfold queryInterface at hp
          rw [if_neg Bool.false_ne_true, if_pos hmatch] at hp
          cases hp
          exact haddr
        · left
          unfold queryInterface
          rw [if_neg Bool.false_ne_true, if_pos hmatch]
      · constructor
        · intro hge p hp
          exfalso
          have : (queryInterface iidConst o riid false).hr = E_NOINTERFACE := by
            unfold queryInterface
            rw [if_neg Bool.false_ne_true, if_neg hmatch]
          rw [this] at hge
          omega
        · right; right
          unfold queryInterface
          rw [if_neg Bool.false_ne_true, if_neg hmatch]

/-- C6 witness: an object with count 1 queried for its own IID yields
`S_OK`, the vtable-field address, and count 2. -/
theorem c6_query_interface_contract_witness :
    queryInterface ⟨1, 2, 3, [4, 5, 6, 7, 8, 9, 10, 11]⟩ ⟨1, 64⟩
        ⟨1, 2, 3, [4, 5, 6, 7, 8, 9, 10, 11]⟩ false
      = ⟨S_OK, some 64, ⟨2, 64⟩⟩ :=
  ((c6_query_interface_contract ⟨1, 2, 3, [4, 5, 6, 7, 8, 9, 10, 11]⟩ ⟨1, 64⟩
      ⟨1, 2, 3, [4, 5, 6, 7, 8, 9, 10, 11]⟩ (by decide) (by decide)).2.2.1
    (Or.inl rfl)).1

/-- C8: `implements` holds exactly when some entry's identifier matches;
`cast_to` linearly scans the entries and, on the first match, returns the
object pointer plus the entry's offset, otherwise null; on a descriptor
with entries at offsets 0 and 8, casting to the first interface returns the
pointer unchanged, to the second returns it plus 8, and to an unlisted
interface returns null. -/
theorem c8_rtti_cast_and_impls (ti : TypeInfo) (objectPtr : Int) (iid : Nat) :
    (ti.impls iid = true ↔ ∃ i ∈ ti.interfaces, i.interfaceId = iid) ∧
    (∀ pre info post, ti.interfaces = pre ++ info :: post → info.interfaceId = iid →
      (∀ i ∈ pre, i.interfaceId ≠ iid) →
      ti.castTo objectPtr iid = some (objectPtr + info.offset)) ∧
    ((∀ i ∈ ti.interfaces, i.interfaceId ≠ iid) → ti.castTo objectPtr iid = none) ∧
    (∀ p : Int,
      (TypeInfo.mk 0 "T" [⟨1, 0⟩, ⟨2, 8⟩]).castTo p 1 = some p ∧
      (TypeInfo.mk 0 "T" [⟨1, 0⟩, ⟨2, 8⟩]).castTo p 2 = some (p + 8) ∧
      (TypeInfo.mk 0 "T" [⟨1, 0⟩, ⟨2, 8⟩]).castTo p 3 = none) := by
  refine ⟨?_, ?_, ?_, ?_⟩
  · unfold TypeInfo.impls
    rw [List.any_eq_true]
    constructor
    · rintro ⟨i, hi, hieq⟩
      exact ⟨i, hi, by simpa using hieq⟩
    · rintro ⟨i, hi, hieq⟩
      exact ⟨i, hi, by simpa using hieq⟩
  · intro pre info post hsplit hmatch hpre
    unfold TypeInfo.castTo
    rw [hsplit, List.find?_append]
    have h1 : pre.find? (fun i => i.interfaceId == iid) = none := by
      rw [List.find?_eq_none]
      intro x hx
      simpa using hpre x hx
    have h2 : (info :: post).find? (fun i => i.interfaceId == iid) = some info :=
      List.find?_cons_of_pos post (by simpa using hmatch)
    rw [h1, h2]
    rfl
  · intro hnone
    unfold TypeInfo.castTo
    have : ti.interfaces.find? (fun i => i.interfaceId == iid) = none := by
      rw [List.find?_eq_none]
      intro x hx
      simpa using hnone x hx
    rw [this]
  · intro p
    refine ⟨?_, ?_, ?_⟩
    · show some (p + 0) = some p
      rw [Int.add_zero]
    · rfl
    · rfl

/-- C8 witness: on the two-entry descriptor, casting pointer 100 to the
second interface yields 108. -/
theorem c8_rtti_cast_and_impls_witness :
    (TypeInfo.mk 0 "T" [⟨1, 0⟩, ⟨2, 8⟩]).castTo 100 2 = some 108 := by
  have h := (c8_rtti_cast_and_impls (TypeInfo.mk 0 "T" [⟨1, 0⟩, ⟨2, 8⟩]) 100 2).2.1
    [⟨1, 0⟩] ⟨2, 8⟩ [] rfl rfl (by decide)
  simpa using h

theorem runRefOps_lt (ops : List RefOp) :
    ∀ c, c < u32Mod → runRefOps c ops < u32Mod := by
  induction ops with
  | nil => intro c hc; exact hc
  | cons op rest ih =>
    intro c _
    have hstep : refStep c op < u32Mod := by
      cases op <;> exact Nat.mod_lt _ (by norm_num [u32Mod])
    exact ih (refStep c op) hstep

/-- C10: every state reachable from the initial count 1 by `add_ref` and
`release` steps is a valid `u32` count (in particular a nonnegative
integer); `add_ref` followed by `release` restores any in-range count; and
from count 1, `add_ref` then `release` returns the count to 1. -/
theorem c10_refcount_state_machine :
    (∀ ops : List RefOp,
      runRefOps refCountNew ops < u32Mod ∧
      (0 : Int) ≤ (runRefOps refCountNew ops : Int)) ∧
    (∀ c : Nat, c < u32Mod → releaseStep (addRefStep c) = c) ∧
    runRefOps refCountNew [RefOp.addRef, RefOp.release] = refCountNew ∧
    addRefStep refCountNew = 2 := by
  refine ⟨?_, ?_, rfl, rfl⟩
  · intro ops
    exact ⟨runRefOps_lt ops refCountNew (by norm_num [refCountNew, u32Mod]),
      Int.natCast_nonneg _⟩
  · intro c hc
    simp only [addRefStep, releaseStep, u32Mod] at *
    omega

/-- C10 witness: add_ref then release from count 5 restores 5. -/
theorem c10_refcount_state_machine_witness :
    releaseStep (addRefStep 5) = 5 :=
  c10_refcount_state_machine.2.1 5 (by norm_num [u32Mod])

/-! ## GUID parsing lemmas -/

theorem hexDigitVal_lt_16 {c : Char} (h : isHexDigit c = true) : hexDigitVal c < 16 := by
  unfold isHexDigit at h
  unfold hexDigitVal
  simp only [Bool.or_eq_true, Bool.and_eq_true, decide_eq_true_eq] at h
  split_ifs with a b
  · simp only [Bool.and_eq_true, decide_eq_true_eq] at a
    omega
  · simp only [Bool.and_eq_true, decide_eq_true_eq] at a b
    omega
  · simp only [Bool.and_eq_true, decide_eq_true_eq] at a b
    omega

theorem hex_ne_plus {c : Char} (h : isHexDigit c = true) : c ≠ '+' := by
  intro hc
  subst hc
  exact absurd h (by decide)

theorem hex_ne_dash {c : Char} (h : isHexDigit c = true) : c ≠ '-' := by
  intro hc
  subst hc
  exact absurd h (by decide)

theorem hex_not_whitespace {c : Char} (h : isHexDigit c = true) :
    c.isWhitespace = false := by
  by_contra hws
  have hws' : c.isWhitespace = true := by
    cases hcase : c.isWhitespace
    · exact absurd hcase hws
    · rfl
  simp only [Char.isWhitespace, Bool.or_eq_true, decide_eq_true_eq] at hws'
  rcases hws' with ((rfl | rfl) | rfl) | rfl <;> exact absurd h (by decide)

theorem hexVal_aux_lt :
    ∀ (s : List Char) (acc : Nat), (∀ c ∈ s, isHexDigit c = true) →
      s.foldl (fun a c => a * 16 + hexDigitVal c) acc < (acc + 1) * 16 ^ s.length := by
  intro s
  induction s with
  | nil =>
    intro acc _
    simp
  | cons c t ih =>
    intro acc h
    have hd : hexDigitVal c < 16 := hexDigitVal_lt_16 (h c (by simp))
    have ht := ih (acc * 16 + hexDigitVal c) (fun x hx => h x (by simp [hx]))
    calc (c :: t).foldl (fun a c => a * 16 + hexDigitVal c) acc
        = t.foldl (fun a c => a * 16 + hexDigitVal c) (acc * 16 + hexDigitVal c) := rfl
      _ < (acc * 16 + hexDigitVal c + 1) * 16 ^ t.length := ht
      _ ≤ ((acc + 1) * 16) * 16 ^ t.length := by
          have : acc * 16 + hexDigitVal c + 1 ≤ (acc + 1) * 16 := by omega
          exact Nat.mul_le_mul_right _ this
      _ = (acc + 1) * 16 ^ (c :: t).length := by
          simp [List.length_cons, Nat.pow_succ]
          ring

theorem hexVal_lt {s : List Char} (h : ∀ c ∈ s, isHexDigit c = true) :
    hexVal s < 16 ^ s.length := by
  simpa using hexVal_aux_lt s 0 h

theorem fromStrRadix16_ok {bits : Nat} {s : List Char} (hne : s ≠ [])
    (hhex : ∀ c ∈ s, isHexDigit c = true) (hfit : 16 ^ s.length ≤ 2 ^ bits) :
    fromStrRadix16 bits s = .ok (hexVal s) := by
  cases s with
  | nil => exact absurd rfl hne
  | cons c t =>
    have hstrip : stripLeadingPlus (c :: t) = c :: t := by
      show (if c = '+' then t else c :: t) = c :: t
      rw [if_neg (hex_ne_plus (hhex c (by simp)))]
    unfold fromStrRadix16
    rw [hstrip]
    rw [if_neg (by simp)]
    rw [if_pos (List.all_eq_true.mpr hhex)]
    rw [if_pos (Nat.lt_of_lt_of_le (hexVal_lt hhex) hfit)]

theorem dropWhile_eq_self_of_all {p : Char → Bool} {l : List Char}
    (h : ∀ c ∈ l, p c = false) : l.dropWhile p = l := by
  cases l with
  | nil => rfl
  | cons c t =>
    exact List.dropWhile_cons_of_neg (by simp [h c (by simp)])

theorem trimChars_eq_self {l : List Char} (h : ∀ c ∈ l, c.isWhitespace = false) :
    trimChars l = l := by
  unfold trimChars
  rw [dropWhile_eq_self_of_all h,
    dropWhile_eq_self_of_all (fun c hc => h c (List.mem_reverse.mp hc)),
    List.reverse_reverse]

theorem splitOnDash_ne_nil : ∀ l : List Char, splitOnDash l ≠ [] := by
  intro l
  cases l with
  | nil => simp [splitOnDash]
  | cons c t =>
    simp only [splitOnDash]
    cases h : splitOnDash t with
    | nil => simp
    | cons p ps =>
      by_cases hc : c = '-' <;> simp [hc]

theorem splitOnDash_no_dash {g : List Char} (h : ∀ c ∈ g, c ≠ '-') :
    splitOnDash g = [g] := by
  induction g with
  | nil => rfl
  | cons c t ih =>
    have ht := ih fun x hx => h x (by simp [hx])
    simp only [splitOnDash, ht]
    rw [if_neg (h c (by simp))]

theorem splitOnDash_group {g rest : List Char} (h : ∀ c ∈ g, c ≠ '-') :
    splitOnDash (g ++ '-' :: rest) = g :: splitOnDash rest := by
  induction g with
  | nil =>
    simp only [List.nil_append, splitOnDash]
    obtain ⟨p, ps, hps⟩ := List.exists_cons_of_ne_nil (splitOnDash_ne_nil rest)
    rw [hps]
    simp
  | cons c t ih =>
    have ht := ih fun x hx => h x (by simp [hx])
    simp only [List.cons_append, splitOnDash, List.append_eq, ht]
    rw [if_neg (h c (by simp))]

theorem isCanonicalGuid_length {s : List Char} (h : IsCanonicalGuid s) :
    s.length = 36 := by
  obtain ⟨g1, g2, g3, g4, g5, rfl, h1, h2, h3, h4, h5, -⟩ := h
  simp [canonicalGuid, h1, h2, h3, h4, h5]

/-- C9 counterexample: a string whose first group has only 4 hex digits — not
of the canonical 8-4-4-4-12 shape — is nevertheless accepted by
`parse_guid_string`, because the lengths of the first three groups are never
checked. -/
theorem c9_guid_parse_counterexample :
    parseGuidString ("1234-1234-5678-9abc-def012345678".toList)
      = .ok (0x1234, 0x1234, 0x5678, [0x9a, 0xbc, 0xde, 0xf0, 0x12, 0x34, 0x56, 0x78]) ∧
    ¬ IsCanonicalGuid ("1234-1234-5678-9abc-def012345678".toList) := by
  constructor
  · rfl
  · intro h
    have h36 := isCanonicalGuid_length h
    have h32 : ("1234-1234-5678-9abc-def012345678".toList).length = 32 := rfl
    omega

/-- C9 (amended): every string of the canonical hyphenated form
`xxxxxxxx-xxxx-xxxx-xxxx-xxxxxxxxxxxx` (groups of 8, 4, 4, 4, 12 hex
digits) parses successfully into its `(data1, data2, data3, data4)`
components; the converse rejection of all other shapes does not hold (see
the counterexample). -/
theorem c9_guid_parse_canonical (g1 g2 g3 g4 g5 : List Char)
    (h1 : g1.length = 8) (h2 : g2.length = 4) (h3 : g3.length = 4)
    (h4 : g4.length = 4) (h5 : g5.length = 12)
    (x1 : ∀ c ∈ g1, isHexDigit c = true) (x2 : ∀ c ∈ g2, isHexDigit c = true)
    (x3 : ∀ c ∈ g3, isHexDigit c = true) (x4 : ∀ c ∈ g4, isHexDigit c = true)
    (x5 : ∀ c ∈ g5, isHexDigit c = true) :
    parseGuidString (canonicalGuid g1 g2 g3 g4 g5)
      = .ok (hexVal g1, hexVal g2, hexVal g3,
          [hexVal (g4.take 2), hexVal (g4.drop 2),
           hexVal ((g5.drop 0).take 2), hexVal ((g5.drop 2).take 2),
           hexVal ((g5.drop 4).take 2), hexVal ((g5.drop 6).take 2),
           hexVal ((g5.drop 8).take 2), hexVal ((g5.drop 10).take 2)]) := by
  have hws : ∀ c ∈ canonicalGuid g1 g2 g3 g4 g5, c.isWhitespace = false := by
    intro c hc
    simp only [canonicalGuid, List.mem_append, List.mem_cons] at hc
    rcases hc with hc | hc | hc | hc | hc | hc | hc | hc | hc
    · exact hex_not_whitespace (x1 c hc)
    · subst hc; decide
    · exact hex_not_whitespace (x2 c hc)
    · subst hc; decide
    · exact hex_not_whitespace (x3 c hc)
    · subst hc; decide
    · exact hex_not_whitespace (x4 c hc)
    · subst hc; decide
    · exact hex_not_whitespace (x5 c hc)
  have hsplit : splitOnDash (canonicalGuid g1 g2 g3 g4 g5) = [g1, g2, g3, g4, g5] := by
    unfold canonicalGuid
    rw [splitOnDash_group (fun c hc => hex_ne_dash (x1 c hc)),
      splitOnDash_group (fun c hc => hex_ne_dash (x2 c hc)),
      splitOnDash_group (fun c hc => hex_ne_dash (x3 c hc)),
      splitOnDash_group (fun c hc => hex_ne_dash (x4 c hc)),
      splitOnDash_no_dash (fun c hc => hex_ne_dash (x5 c hc))]
  have hb : ∀ (k : Nat), k + 2 ≤ g5.length →
      fromStrRadix16 8 ((g5.drop k).take 2) = .ok (hexVal ((g5.drop k).take 2)) := by
    intro k hk
    have hlen : ((g5.drop k).take 2).length = 2 := by
      simp [List.length_take, List.length_drop]
      omega
    apply fromStrRadix16_ok
    · intro hnil
      rw [hnil] at hlen
      simp at hlen
    · intro c hc
      exact x5 c (List.drop_subset _ _ (List.take_subset _ _ hc))
    · rw [hlen]
      norm_num
  have hb0 : fromStrRadix16 8 (g4.take 2) = .ok (hexVal (g4.take 2)) := by
    have hlen : (g4.take 2).length = 2 := by simp [List.length_take, h4]
    apply fromStrRadix16_ok
    · intro hnil
      rw [hnil] at hlen
      simp at hlen
    · intro c hc
      exact x4 c (List.take_subset _ _ hc)
    · rw [hlen]
      norm_num
  have hb1 : fromStrRadix16 8 (g4.drop 2) = .ok (hexVal (g4.drop 2)) := by
    have hlen : (g4.drop 2).length = 2 := by simp [List.length_drop, h4]
    apply fromStrRadix16_ok
    · intro hnil
      rw [hnil] at hlen
      simp at hlen
    · intro c hc
      exact x4 c (List.drop_subset _ _ hc)
    · rw [hlen]
      norm_num
  have hg1 : fromStrRadix16 32 g1 = .ok (hexVal g1) := by
    apply fromStrRadix16_ok (by intro hn; rw [hn] at h1; simp at h1) x1
    rw [h1]; norm_num
  have hg2 : fromStrRadix16 16 g2 = .ok (hexVal g2) := by
    apply fromStrRadix16_ok (by intro hn; rw [hn] at h2; simp at h2) x2
    rw [h2]; norm_num
  have hg3 : fromStrRadix16 16 g3 = .ok (hexVal g3) := by
    apply fromStrRadix16_ok (by intro hn; rw [hn] at h3; simp at h3) x3
    rw [h3]; norm_num
  unfold parseGuidString
  rw [trimChars_eq_self hws, hsplit]
  simp only [hg1, hg2, hg3, hb0, hb1, hb 0 (by omega), hb 2 (by omega), hb 4 (by omega),
    hb 6 (by omega), hb 8 (by omega), hb 10 (by omega), h4, h5, Except.mapError,
    Except.bind, bind, ne_eq, not_true_eq_false, if_false, ite_false]
  simp
  rfl

/-- C9 witness: the spec's round-trip example parses to the expected
components. -/
theorem c9_guid_parse_canonical_witness :
    parseGuidString ("12345678-1234-5678-9abc-def012345678".toList)
      = .ok (0x12345678, 0x1234, 0x5678,
          [0x9a, 0xbc, 0xde, 0xf0, 0x12, 0x34, 0x56, 0x78]) := by
  have h := c9_guid_parse_canonical "12345678".toList "1234".toList "5678".toList
    "9abc".toList "def012345678".toList (by decide) (by decide) (by decide) (by decide)
    (by decide) (by decide) (by decide) (by decide) (by decide) (by decide)
  exact h

end CppVtable
